import Mathlib

/-!
Shallow embedding of `src/backend/main.py` (account-manager backend):
a CRUD service over an `accounts` table plus a full-snapshot sync of the
table to an external spreadsheet.  Machine state is passed explicitly;
HTTP errors and uncaught exceptions are `Except` values.
-/

set_option maxRecDepth 4000

/-- Timestamps as civil UTC fields (the database stores and compares
timestamps chronologically, which is lexicographic on these fields). -/
structure Timestamp where
  year : Nat
  month : Nat
  day : Nat
  hour : Nat
  minute : Nat
  second : Nat
deriving DecidableEq, Repr

/-- Lexicographic `≤` on lists of naturals, used to compare timestamps. -/
def lexLe : List Nat → List Nat → Bool
  | [], _ => true
  | _ :: _, [] => false
  | a :: as, b :: bs =>
    if a < b then true
    else if a = b then lexLe as bs
    else false

/-- `lexLe` is total. -/
def lexLe_total : ∀ a b : List Nat, lexLe a b = true ∨ lexLe b a = true
  | [], _ => Or.inl rfl
  | _ :: _, [] => Or.inr rfl
  | a :: as, b :: bs => by
    unfold lexLe
    rcases Nat.lt_trichotomy a b with h | h | h
    · left; rw [if_pos h]
    · subst h
      rcases lexLe_total as bs with ih | ih
      · left; rw [if_neg (lt_irrefl a), if_pos rfl]; exact ih
      · right; rw [if_neg (lt_irrefl a), if_pos rfl]; exact ih
    · right; rw [if_pos h]

/-- `lexLe` is transitive. -/
def lexLe_trans : ∀ a b c : List Nat,
    lexLe a b = true → lexLe b c = true → lexLe a c = true
  | [], _, _, _, _ => rfl
  | _ :: _, [], _, h, _ => by rw [lexLe] at h; exact Bool.noConfusion h
  | _ :: _, _ :: _, [], _, h => by rw [lexLe] at h; exact Bool.noConfusion h
  | a :: as, b :: bs, c :: cs, h1, h2 => by
    unfold lexLe at h1 h2 ⊢
    by_cases hab : a < b
    · by_cases hbc : b < c
      · rw [if_pos (Nat.lt_trans hab hbc)]
      · rw [if_neg hbc] at h2
        by_cases hbc' : b = c
        · subst hbc'; rw [if_pos hab]
        · rw [if_neg hbc'] at h2; exact Bool.noConfusion h2
    · rw [if_neg hab] at h1
      by_cases hab' : a = b
      · subst hab'
        rw [if_pos rfl] at h1
        by_cases hac : a < c
        · rw [if_pos hac]
        · rw [if_neg hac] at h2 ⊢
          by_cases hac' : a = c
          · rw [if_pos hac'] at h2 ⊢
            exact lexLe_trans as bs cs h1 h2
          · rw [if_neg hac'] at h2; exact Bool.noConfusion h2
      · rw [if_neg hab'] at h1; exact Bool.noConfusion h1

def Timestamp.toList (t : Timestamp) : List Nat :=
  [t.year, t.month, t.day, t.hour, t.minute, t.second]

/-- Chronological order on timestamps. -/
def Timestamp.le (a b : Timestamp) : Bool :=
  lexLe a.toList b.toList

/-- Left pad a decimal rendering with zeros to width `w`
(embeds the fixed-width fields of Postgres `to_char`). -/
def padNat (w n : Nat) : String :=
  let s := Nat.repr n
  String.mk (List.replicate (w - s.length) '0') ++ s

/-- Embedding of `to_char(ts,'YYYY-MM-DD"T"HH24:MI:SS"Z"')` from
`sync_all_to_sheet`: ISO-8601 UTC at second precision. -/
def toCharIsoUTC (t : Timestamp) : String :=
  padNat 4 t.year ++ "-" ++ padNat 2 t.month ++ "-" ++ padNat 2 t.day ++
    "T" ++ padNat 2 t.hour ++ ":" ++ padNat 2 t.minute ++ ":" ++ padNat 2 t.second ++ "Z"

/-- Pydantic `AccountIn` (main.py lines 55-63): request body of create and
update.  `Optional[...] = None` fields parse to `none` when omitted;
`two_factor_enabled : Optional[bool] = False` parses to `some false` when
omitted. -/
structure AccountIn where
  platform : String
  username : Option String
  email : Option String
  password : Option String
  phone : Option String
  note : Option String
  two_factor_enabled : Option Bool
  tags : Option String
deriving DecidableEq, Repr

/-- The parsed create/update body in which every optional field is omitted,
so each takes its Pydantic default (`None`, and `False` for
`two_factor_enabled`). -/
def omittedPayload (platform : String) : AccountIn :=
  { platform := platform
    username := none
    email := none
    password := none
    phone := none
    note := none
    two_factor_enabled := some false
    tags := none }

/-- Pydantic `AccountOut` (main.py lines 65-68) and, equally, a row of the
`accounts` table: the payload fields plus `id`, `created_at`, `updated_at`.
The table's text columns are nullable (the sync query wraps them in
`coalesce`), so optional fields are `Option`s. -/
structure AccountOut extends AccountIn where
  id : Nat
  created_at : Timestamp
  updated_at : Timestamp
deriving DecidableEq, Repr

/-- The `accounts` table.  Modelled from the spec: the DDL is not in the
repository; per the spec `identifier` is system-assigned, unique and
monotonic via insertion order (`nextId` is the sequence value) and the
timestamps are system-assigned at insertion.  Rows are kept in insertion
order. -/
structure Db where
  accounts : List AccountOut
  nextId : Nat
deriving DecidableEq, Repr

/-- Process configuration (main.py lines 12-15) together with the opaque
external collaborator: `spreadsheetId` is `GOOGLE_SHEETS_SPREADSHEET_ID`,
`serviceAccountJson` is `GCP_SERVICE_ACCOUNT_JSON`.  `serviceOk` models
whether the opaque Google client calls (credential parsing, `clear`,
`update`) succeed; it is `false` for invalid credentials or service
failure. -/
structure Env where
  spreadsheetId : Option String
  serviceAccountJson : Option String
  serviceOk : Bool
deriving DecidableEq, Repr

/-- The external spreadsheet tab contents, plus the database.  `sheet` is
the tabular range the sync overwrites. -/
structure SysState where
  db : Db
  sheet : List (List String)
deriving DecidableEq, Repr

/-- Errors escaping a request handler: `http` is a raised `HTTPException`;
`server` is an uncaught exception (surfaced by the framework as a 500). -/
inductive SyncErr where
  | missingCreds
  | serviceFailure
deriving DecidableEq, Repr

inductive ApiError where
  | http (status : Nat) (detail : String)
  | server (e : SyncErr)
deriving DecidableEq, Repr

instance {ε α : Type} [DecidableEq ε] [DecidableEq α] : DecidableEq (Except ε α) := fun x y =>
  match x, y with
  | .ok a, .ok b =>
    if h : a = b then isTrue (by rw [h]) else isFalse (fun hc => by cases hc; exact h rfl)
  | .ok _, .error _ => isFalse (fun hc => by cases hc)
  | .error _, .ok _ => isFalse (fun hc => by cases hc)
  | .error e, .error f =>
    if h : e = f then isTrue (by rw [h]) else isFalse (fun hc => by cases hc; exact h rfl)

/-- `HEADERS` (main.py lines 50-52). -/
def HEADERS : List String :=
  ["id", "platform", "username", "email", "password", "phone", "note",
   "two_factor_enabled", "tags", "created_at", "updated_at"]

/-- One data row of the sync query (main.py lines 96-105): the select list
`id, platform, coalesce(username,''), ..., coalesce(two_factor_enabled,false)::text,
coalesce(tags,''), to_char(created_at,...), to_char(updated_at,...)`. -/
def sqlRowOfAccount (a : AccountOut) : List String :=
  [Nat.repr a.id,
   a.platform,
   a.username.getD "",
   a.email.getD "",
   a.password.getD "",
   a.phone.getD "",
   a.note.getD "",
   (if a.two_factor_enabled.getD false then "true" else "false"),
   a.tags.getD "",
   toCharIsoUTC a.created_at,
   toCharIsoUTC a.updated_at]

/-- `order by id asc` of the sync query. -/
def idAsc (a b : AccountOut) : Prop := a.id ≤ b.id

instance : DecidableRel idAsc := fun a b => inferInstanceAs (Decidable (a.id ≤ b.id))

instance : IsTotal AccountOut idAsc := ⟨fun a b => Nat.le_total a.id b.id⟩

instance : IsTrans AccountOut idAsc := ⟨fun _ _ _ h h' => Nat.le_trans h h'⟩

/-- The `values` list written to the sheet by `sync_all_to_sheet`:
`[HEADERS]` followed by one row per account, rows ordered by id asc. -/
def syncValues (db : Db) : List (List String) :=
  HEADERS :: (List.insertionSort idAsc db.accounts).map sqlRowOfAccount

/-- `sync_all_to_sheet` (main.py lines 92-125).  Returns the new sheet
contents, or the uncaught error.  When `SPREADSHEET_ID` is unset it
returns at once without touching the sheet; otherwise
`get_sheets_service` raises if `GCP_SERVICE_ACCOUNT_JSON` is missing, the
opaque client calls raise when `serviceOk` is false, and on success the
range is cleared and overwritten with `syncValues`. -/
def sync_all_to_sheet (env : Env) (db : Db) (sheet : List (List String)) :
    Except SyncErr (List (List String)) :=
  match env.spreadsheetId with
  | none => .ok sheet
  | some _ =>
    match env.serviceAccountJson with
    | none => .error .missingCreds
    | some _ =>
      if env.serviceOk then .ok (syncValues db) else .error .serviceFailure

/-- ASCII lowercasing, the embedding of the case folding Postgres `ILIKE`
applies to both operands. -/
def lowerChar : Char → Char
  | 'A' => 'a' | 'B' => 'b' | 'C' => 'c' | 'D' => 'd' | 'E' => 'e' | 'F' => 'f'
  | 'G' => 'g' | 'H' => 'h' | 'I' => 'i' | 'J' => 'j' | 'K' => 'k' | 'L' => 'l'
  | 'M' => 'm' | 'N' => 'n' | 'O' => 'o' | 'P' => 'p' | 'Q' => 'q' | 'R' => 'r'
  | 'S' => 's' | 'T' => 't' | 'U' => 'u' | 'V' => 'v' | 'W' => 'w' | 'X' => 'x'
  | 'Y' => 'y' | 'Z' => 'z'
  | c => c

def lowerList (cs : List Char) : List Char :=
  cs.map lowerChar

/-- Does `f` accept some suffix of the subject? (`%` consumes any
sequence of subject characters.) -/
def anyTailF (f : List Char → Bool) : List Char → Bool
  | [] => f []
  | c :: s' => f (c :: s') || anyTailF f s'

/-- Postgres `LIKE` pattern matching over characters: `%` matches any
sequence, `_` any single character, and backslash escapes the next
pattern character.  A pattern ending in a bare escape character is an
error in Postgres; here it simply matches nothing (such a pattern is
unreachable from the search endpoint, whose patterns end in `%`). -/
def likeMatch : List Char → List Char → Bool
  | [], s => s.isEmpty
  | c :: ps, s =>
    if c = '%' then anyTailF (likeMatch ps) s
    else if c = '\\' then
      match ps, s with
      | [], _ => false
      | _ :: _, [] => false
      | d :: ps', e :: s' => d == e && likeMatch ps' s'
    else
      match s with
      | [] => false
      | e :: s' => (c == '_' || c == e) && likeMatch ps s'

/-- `lhs ILIKE pat`: case-insensitive `LIKE`. -/
def ilike (s pat : String) : Bool :=
  likeMatch (lowerList pat.data) (lowerList s.data)

/-- `ILIKE` on a nullable column: `NULL ILIKE pat` is `NULL`, which does
not select the row. -/
def ilikeOpt : Option String → String → Bool
  | none, _ => false
  | some s, pat => ilike s pat

/-- Does `n` occur at the head of `hay`? (helper for the spec-level
substring predicate). -/
def leadMatch : List Char → List Char → Bool
  | [], _ => true
  | _ :: _, [] => false
  | a :: as, b :: bs => a == b && leadMatch as bs

/-- Does `n` occur contiguously anywhere in the second list? -/
def containsSub (n : List Char) : List Char → Bool
  | [] => leadMatch n []
  | c :: hs => leadMatch n (c :: hs) || containsSub n hs

/-- Spec-level predicate: `needle` is a case-insensitive substring of
`field`. -/
def containsCI (needle field : String) : Bool :=
  containsSub (lowerList needle.data) (lowerList field.data)

def optContainsCI (needle : String) : Option String → Bool
  | none => false
  | some s => containsCI needle s

/-- Spec-level row predicate for Search: platform, username, email, or
tags contains the keyword as a case-insensitive substring. -/
def specMatch (kw : String) (a : AccountOut) : Bool :=
  containsCI kw a.platform || optContainsCI kw a.username ||
    optContainsCI kw a.email || optContainsCI kw a.tags

/-- A keyword free of `LIKE` metacharacters and of the escape character. -/
def plainChar (c : Char) : Bool :=
  !(c == '%' || c == '_' || c == '\\')

def plainKw (q : String) : Bool :=
  q.data.all plainChar

/-- `order by updated_at desc` of the search query. -/
def updatedDesc (a b : AccountOut) : Prop :=
  Timestamp.le b.updated_at a.updated_at = true

instance : DecidableRel updatedDesc :=
  fun _a _b => inferInstanceAs (Decidable (_ = true))

instance : IsTotal AccountOut updatedDesc :=
  ⟨fun a b => by
    unfold updatedDesc Timestamp.le
    rcases lexLe_total b.updated_at.toList a.updated_at.toList with h | h
    · exact Or.inl h
    · exact Or.inr h⟩

instance : IsTrans AccountOut updatedDesc :=
  ⟨fun _a _b _c h1 h2 => by
    unfold updatedDesc Timestamp.le at h1 h2 ⊢
    exact lexLe_trans _ _ _ h2 h1⟩

/-- `order by id desc` of the list query. -/
def idDesc (a b : AccountOut) : Prop := b.id ≤ a.id

instance : DecidableRel idDesc := fun a b => inferInstanceAs (Decidable (b.id ≤ a.id))

instance : IsTotal AccountOut idDesc := ⟨fun a b => Nat.le_total b.id a.id⟩

instance : IsTrans AccountOut idDesc := ⟨fun _ _ _ h h' => Nat.le_trans h' h⟩

/-- `GET /health` (main.py lines 80-82): returns `{"ok": True}` and
touches nothing. -/
def health (st : SysState) : Bool × SysState :=
  (true, st)

/-- The `insert into accounts ... returning ...` of `create_account`.
Modelled from the spec where the table DDL (absent from the repository)
decides: the identifier comes from the auto-increment sequence and both
timestamps default to the insertion time `now`; the explicitly supplied
payload columns are stored as given (`NULL` stays `NULL`). -/
def insertRow (db : Db) (p : AccountIn) (now : Timestamp) : AccountOut × Db :=
  let a : AccountOut := { toAccountIn := p, id := db.nextId, created_at := now, updated_at := now }
  (a, { accounts := db.accounts ++ [a], nextId := db.nextId + 1 })

/-- `POST /accounts` (main.py lines 128-141): insert, commit, then sync;
a sync error escapes after the commit. -/
def create_account (env : Env) (st : SysState) (payload : AccountIn) (now : Timestamp) :
    Except ApiError AccountOut × SysState :=
  let r := insertRow st.db payload now
  match sync_all_to_sheet env r.2 st.sheet with
  | .ok sheet' => (.ok r.1, { db := r.2, sheet := sheet' })
  | .error e => (.error (.server e), { db := r.2, sheet := st.sheet })

/-- `GET /accounts` (main.py lines 143-148): select all, `order by id
desc`; read-only. -/
def list_accounts (st : SysState) : List AccountOut × SysState :=
  (List.insertionSort idDesc st.db.accounts, st)

/-- `GET /accounts/search?q=...` (main.py lines 150-160): rows where
`platform ilike :kw or username ilike :kw or email ilike :kw or tags
ilike :kw` with `kw = "%" ++ q ++ "%"`, `order by updated_at desc`;
read-only. -/
def search_accounts (st : SysState) (q : String) : List AccountOut × SysState :=
  let kw := "%" ++ q ++ "%"
  (List.insertionSort updatedDesc
    (st.db.accounts.filter (fun a =>
      ilike a.platform kw || ilikeOpt a.username kw ||
        ilikeOpt a.email kw || ilikeOpt a.tags kw)),
   st)

/-- The `update accounts set ... where id = :id` row transformer: replaces
exactly the eight payload columns, leaving `id`, `created_at` and
`updated_at` untouched. -/
def applyPayload (a : AccountOut) (p : AccountIn) : AccountOut :=
  { a with toAccountIn := p }

/-- `PUT /accounts/{account_id}` (main.py lines 162-186): update matching
rows; `rowcount == 0` rolls back and raises 404 "Not found"; otherwise
commit, return the first returned row, then sync (errors escape after the
commit). -/
def update_account (env : Env) (st : SysState) (account_id : Nat) (payload : AccountIn) :
    Except ApiError AccountOut × SysState :=
  let db' : Db :=
    { st.db with
      accounts := st.db.accounts.map (fun a =>
        if a.id = account_id then applyPayload a payload else a) }
  match st.db.accounts.filter (fun a => a.id = account_id) with
  | [] => (.error (.http 404 "Not found"), st)
  | m :: _ =>
    match sync_all_to_sheet env db' st.sheet with
    | .ok sheet' => (.ok (applyPayload m payload), { db := db', sheet := sheet' })
    | .error e => (.error (.server e), { db := db', sheet := st.sheet })

/-- `DELETE /accounts/{account_id}` (main.py lines 188-196): delete
matching rows; `rowcount == 0` rolls back and raises 404 "Not found";
otherwise commit, sync, and answer `{"ok": True}`. -/
def delete_account (env : Env) (st : SysState) (account_id : Nat) :
    Except ApiError Bool × SysState :=
  if st.db.accounts.countP (fun a => a.id = account_id) = 0 then
    (.error (.http 404 "Not found"), st)
  else
    let db' : Db := { st.db with accounts := st.db.accounts.filter (fun a => a.id ≠ account_id) }
    match sync_all_to_sheet env db' st.sheet with
    | .ok sheet' => (.ok true, { db := db', sheet := sheet' })
    | .error e => (.error (.server e), { db := db', sheet := st.sheet })

/-! Concrete fixtures used by witnesses and counterexamples. -/

def sampleTime : Timestamp := ⟨2024, 1, 1, 0, 0, 0⟩

def sampleTime2 : Timestamp := ⟨2024, 1, 2, 0, 0, 0⟩

def sampleTime3 : Timestamp := ⟨2024, 1, 3, 0, 0, 0⟩

/-- Degraded mode: no spreadsheet configured. -/
def envUnconfigured : Env := ⟨none, none, true⟩

/-- Spreadsheet configured but `GCP_SERVICE_ACCOUNT_JSON` unset. -/
def envMissingCreds : Env := ⟨some "sheet-1", none, true⟩

/-- Spreadsheet configured with working credentials. -/
def envConfigured : Env := ⟨some "sheet-1", some "svc-json", true⟩

def emptyState : SysState := ⟨⟨[], 1⟩, []⟩

def acctAcb : AccountOut :=
  { toAccountIn := omittedPayload "acb", id := 1,
    created_at := sampleTime, updated_at := sampleTime }

def stateAcb : SysState := ⟨⟨[acctAcb], 2⟩, []⟩

def acctXzy : AccountOut :=
  { toAccountIn := omittedPayload "xzy", id := 1,
    created_at := sampleTime, updated_at := sampleTime }

def stateXzy : SysState := ⟨⟨[acctXzy], 2⟩, []⟩

/-- The store after creating platforms "A", then "B", then "C" starting
from the empty store (sync unconfigured). -/
def insertedABC : SysState :=
  (create_account envUnconfigured
    (create_account envUnconfigured
      (create_account envUnconfigured emptyState (omittedPayload "A") sampleTime).2
      (omittedPayload "B") sampleTime2).2
    (omittedPayload "C") sampleTime3).2

def acctA : AccountOut :=
  { toAccountIn := omittedPayload "A", id := 1,
    created_at := sampleTime, updated_at := sampleTime }

def acctB : AccountOut :=
  { toAccountIn := omittedPayload "B", id := 2,
    created_at := sampleTime2, updated_at := sampleTime2 }

def acctC : AccountOut :=
  { toAccountIn := omittedPayload "C", id := 3,
    created_at := sampleTime3, updated_at := sampleTime3 }

/-- Result of updating account 1 of `stateAcb` to platform "newp". -/
def updOut : AccountOut := applyPayload acctAcb (omittedPayload "newp")

def updState : SysState := ⟨⟨[updOut], 2⟩, []⟩

/-! Claim theorems. -/

/-- C9: the read operations — health check, list, and search — trigger no
snapshot sync and leave both the store and the external sheet unchanged
(the returned state equals the input state). -/
theorem reads_are_pure (st : SysState) (q : String) :
    (health st).1 = true ∧ (health st).2 = st ∧
    (list_accounts st).2 = st ∧ (search_accounts st q).2 = st :=
  ⟨rfl, rfl, rfl, rfl⟩

/-- C3: updating or deleting an id absent from the store answers
404 "Not found", the attempted mutation is rolled back (the state is
returned unchanged), and deleting the same absent id a second time is
again 404 "Not found". -/
theorem absent_id_not_found (env : Env) (st : SysState) (i : Nat) (p : AccountIn)
    (h : ∀ a ∈ st.db.accounts, a.id ≠ i) :
    update_account env st i p = (.error (.http 404 "Not found"), st) ∧
    delete_account env st i = (.error (.http 404 "Not found"), st) ∧
    (delete_account env (delete_account env st i).2 i).1 = .error (.http 404 "Not found") := by
  have hf : st.db.accounts.filter (fun a => a.id = i) = [] :=
    List.filter_eq_nil_iff.mpr (fun a ha => by simpa using h a ha)
  have hc : st.db.accounts.countP (fun a => a.id = i) = 0 :=
    List.countP_eq_zero.mpr (fun a ha => by simpa using h a ha)
  have hu : update_account env st i p = (.error (.http 404 "Not found"), st) := by
    simp [update_account, hf]
  have hd : delete_account env st i = (.error (.http 404 "Not found"), st) := by
    simp [delete_account, hc]
  exact ⟨hu, hd, by rw [hd]; exact congrArg Prod.fst hd⟩

theorem absent_id_not_found_witness :
    (∀ a ∈ emptyState.db.accounts, a.id ≠ 1) ∧
    update_account envUnconfigured emptyState 1 (omittedPayload "X") =
      (.error (.http 404 "Not found"), emptyState) ∧
    delete_account envUnconfigured emptyState 1 =
      (.error (.http 404 "Not found"), emptyState) ∧
    (delete_account envUnconfigured (delete_account envUnconfigured emptyState 1).2 1).1 =
      .error (.http 404 "Not found") :=
  ⟨by decide, absent_id_not_found envUnconfigured emptyState 1 (omittedPayload "X") (by decide)⟩

/-- C7: List returns all stored accounts ordered by identifier descending
(a permutation of the store sorted by `idDesc`); in particular after
inserting platforms "A", "B", "C" in that order into the empty store,
list returns `[C, B, A]`. -/
theorem list_ordered_by_id_desc (st : SysState) :
    List.Perm (list_accounts st).1 st.db.accounts ∧
    List.Sorted idDesc (list_accounts st).1 ∧
    (list_accounts insertedABC).1 = [acctC, acctB, acctA] :=
  ⟨List.perm_insertionSort idDesc st.db.accounts,
   List.sorted_insertionSort idDesc st.db.accounts,
   by decide⟩

/-- C6: with the spreadsheet configured and credentials working, the sync
overwrites the sheet with the header row followed by one row per account
(ordered by id), each row holding, in order: id, platform, username,
email, password, phone, note, two_factor_enabled, tags, created_at,
updated_at — null optional fields rendered as "", the flag rendered as
"true"/"false", and both timestamps rendered ISO-8601 UTC at second
precision. -/
theorem snapshot_layout (env : Env) (db : Db) (sheet : List (List String))
    (sid cred : String)
    (hsid : env.spreadsheetId = some sid)
    (hcred : env.serviceAccountJson = some cred)
    (hok : env.serviceOk = true) :
    sync_all_to_sheet env db sheet =
      .ok (HEADERS :: (List.insertionSort idAsc db.accounts).map (fun a =>
        [Nat.repr a.id, a.platform, a.username.getD "", a.email.getD "",
         a.password.getD "", a.phone.getD "", a.note.getD "",
         (if a.two_factor_enabled.getD false then "true" else "false"),
         a.tags.getD "", toCharIsoUTC a.created_at, toCharIsoUTC a.updated_at])) := by
  simp [sync_all_to_sheet, hsid, hcred, hok, syncValues, sqlRowOfAccount]

theorem snapshot_layout_witness :
    envConfigured.spreadsheetId = some "sheet-1" ∧
    envConfigured.serviceAccountJson = some "svc-json" ∧
    envConfigured.serviceOk = true ∧
    sync_all_to_sheet envConfigured stateAcb.db [] =
      .ok (HEADERS :: (List.insertionSort idAsc stateAcb.db.accounts).map (fun a =>
        [Nat.repr a.id, a.platform, a.username.getD "", a.email.getD "",
         a.password.getD "", a.phone.getD "", a.note.getD "",
         (if a.two_factor_enabled.getD false then "true" else "false"),
         a.tags.getD "", toCharIsoUTC a.created_at, toCharIsoUTC a.updated_at])) :=
  ⟨rfl, rfl, rfl, snapshot_layout envConfigured stateAcb.db [] "sheet-1" "svc-json" rfl rfl rfl⟩


/-- C5: with the spreadsheet unconfigured, the sync is a no-op that
returns without error and leaves the sheet unchanged, and every CRUD
operation still succeeds: create returns the inserted record, list and
search answer normally without touching state, and update/delete of a
present id answer ok. -/
theorem degraded_mode_ok (env : Env) (st : SysState) (p : AccountIn)
    (now : Timestamp) (i : Nat) (q : String)
    (hsheet : env.spreadsheetId = none)
    (hmem : ∃ a ∈ st.db.accounts, a.id = i) :
    sync_all_to_sheet env st.db st.sheet = .ok st.sheet ∧
    (create_account env st p now).1 = .ok (insertRow st.db p now).1 ∧
    list_accounts st = (List.insertionSort idDesc st.db.accounts, st) ∧
    (search_accounts st q).2 = st ∧
    (delete_account env st i).1 = .ok true ∧
    (∃ out, (update_account env st i p).1 = .ok out) := by
  have hsync : ∀ db sheet, sync_all_to_sheet env db sheet = .ok sheet := by
    intro db sheet
    simp [sync_all_to_sheet, hsheet]
  obtain ⟨a, ha, hai⟩ := hmem
  have hcne : ¬ st.db.accounts.countP (fun x => x.id = i) = 0 := by
    intro h0
    exact absurd hai (by simpa using List.countP_eq_zero.mp h0 a ha)
  refine ⟨hsync _ _, ?_, rfl, rfl, ?_, ?_⟩
  · simp only [create_account]
    rw [hsync]
  · simp only [delete_account]
    rw [if_neg hcne, hsync]
  · cases hfe : st.db.accounts.filter (fun x => x.id = i) with
    | nil =>
      exact absurd hai (by simpa using List.filter_eq_nil_iff.mp hfe a ha)
    | cons m rest =>
      refine ⟨applyPayload m p, ?_⟩
      simp only [update_account, hfe]
      rw [hsync]

theorem degraded_mode_ok_witness :
    envUnconfigured.spreadsheetId = none ∧
    (∃ a ∈ stateAcb.db.accounts, a.id = 1) ∧
    sync_all_to_sheet envUnconfigured stateAcb.db stateAcb.sheet = .ok stateAcb.sheet ∧
    (create_account envUnconfigured stateAcb (omittedPayload "Y") sampleTime2).1 =
      .ok (insertRow stateAcb.db (omittedPayload "Y") sampleTime2).1 :=
  ⟨rfl, by decide,
   (degraded_mode_ok envUnconfigured stateAcb (omittedPayload "Y") sampleTime2 1 "g"
      rfl (by decide)).1,
   (degraded_mode_ok envUnconfigured stateAcb (omittedPayload "Y") sampleTime2 1 "g"
      rfl (by decide)).2.1⟩

/-- C4: each mutation commits before the sync runs, so when the
spreadsheet is configured but the credentials are missing or invalid the
handler surfaces a server error while the mutation is already durable in
the store: create has inserted the row, update has rewritten the matching
rows, delete has removed them, and the sheet is left as it was. -/
theorem sync_error_after_commit (env : Env) (st : SysState) (p : AccountIn)
    (now : Timestamp) (i : Nat) (sid : String)
    (hsid : env.spreadsheetId = some sid)
    (hfail : env.serviceAccountJson = none ∨ env.serviceOk = false)
    (hmem : ∃ a ∈ st.db.accounts, a.id = i) :
    (∃ e, create_account env st p now =
      (.error (.server e), { db := (insertRow st.db p now).2, sheet := st.sheet })) ∧
    (∃ e, (update_account env st i p).1 = .error (.server e)) ∧
    (update_account env st i p).2.db.accounts =
      st.db.accounts.map (fun a => if a.id = i then applyPayload a p else a) ∧
    (update_account env st i p).2.sheet = st.sheet ∧
    (∃ e, (delete_account env st i).1 = .error (.server e)) ∧
    (delete_account env st i).2.db.accounts =
      st.db.accounts.filter (fun a => a.id ≠ i) := by
  have hsync : ∀ db sheet, ∃ e, sync_all_to_sheet env db sheet = .error e := by
    intro db sheet
    rcases hfail with hf | hf
    · exact ⟨.missingCreds, by simp [sync_all_to_sheet, hsid, hf]⟩
    · cases hj : env.serviceAccountJson with
      | none => exact ⟨.missingCreds, by simp [sync_all_to_sheet, hsid, hj]⟩
      | some j => exact ⟨.serviceFailure, by simp [sync_all_to_sheet, hsid, hj, hf]⟩
  obtain ⟨a, ha, hai⟩ := hmem
  have hcne : ¬ st.db.accounts.countP (fun x => x.id = i) = 0 := by
    intro h0
    exact absurd hai (by simpa using List.countP_eq_zero.mp h0 a ha)
  obtain ⟨e1, he1⟩ := hsync (insertRow st.db p now).2 st.sheet
  obtain ⟨e3, he3⟩ :=
    hsync ⟨st.db.accounts.filter (fun a => a.id ≠ i), st.db.nextId⟩ st.sheet
  have hcre : create_account env st p now =
      (.error (.server e1), { db := (insertRow st.db p now).2, sheet := st.sheet }) := by
    simp only [create_account]
    rw [he1]
  have hdel : delete_account env st i =
      (.error (.server e3),
        ⟨⟨st.db.accounts.filter (fun a => a.id ≠ i), st.db.nextId⟩, st.sheet⟩) := by
    simp only [delete_account]
    rw [if_neg hcne, he3]
  cases hfe : st.db.accounts.filter (fun x => x.id = i) with
  | nil =>
    exact absurd hai (by simpa using List.filter_eq_nil_iff.mp hfe a ha)
  | cons m rest =>
    obtain ⟨e2, he2⟩ :=
      hsync ⟨st.db.accounts.map (fun a => if a.id = i then applyPayload a p else a),
        st.db.nextId⟩ st.sheet
    have hupd : update_account env st i p =
        (.error (.server e2),
          ⟨⟨st.db.accounts.map (fun a => if a.id = i then applyPayload a p else a),
            st.db.nextId⟩, st.sheet⟩) := by
      simp only [update_account, hfe]
      rw [he2]
    exact ⟨⟨e1, hcre⟩, ⟨e2, by rw [hupd]⟩, by rw [hupd], by rw [hupd],
      ⟨e3, by rw [hdel]⟩, by rw [hdel]⟩

theorem sync_error_after_commit_witness :
    envMissingCreds.spreadsheetId = some "sheet-1" ∧
    (envMissingCreds.serviceAccountJson = none ∨ envMissingCreds.serviceOk = false) ∧
    (∃ a ∈ stateAcb.db.accounts, a.id = 1) ∧
    (update_account envMissingCreds stateAcb 1 (omittedPayload "Z")).2.db.accounts =
      stateAcb.db.accounts.map
        (fun a => if a.id = 1 then applyPayload a (omittedPayload "Z") else a) :=
  ⟨rfl, Or.inl rfl, by decide,
   (sync_error_after_commit envMissingCreds stateAcb (omittedPayload "Z") sampleTime2 1
      "sheet-1" rfl (Or.inl rfl) (by decide)).2.2.1⟩

/-- C8: a successful update-by-id leaves the identifier and `created_at`
of the target unchanged (the answer carries the id asked for and the
`created_at` of a matching pre-state row), every row of the post-state
keeps the id and `created_at` of some pre-state row, and create leaves
every existing row in place. -/
theorem id_and_created_at_immutable (env : Env) (st : SysState) (i : Nat)
    (p : AccountIn) (out : AccountOut) (st' : SysState)
    (h : update_account env st i p = (.ok out, st')) :
    out.id = i ∧
    (∃ m ∈ st.db.accounts, m.id = i ∧ out.created_at = m.created_at) ∧
    (∀ a' ∈ st'.db.accounts, ∃ a ∈ st.db.accounts,
      a'.id = a.id ∧ a'.created_at = a.created_at) ∧
    (∀ (q : AccountIn) (now : Timestamp) (a : AccountOut),
      a ∈ st.db.accounts → a ∈ (create_account env st q now).2.db.accounts) := by
  have hcreate : ∀ (q : AccountIn) (now : Timestamp) (a : AccountOut),
      a ∈ st.db.accounts → a ∈ (create_account env st q now).2.db.accounts := by
    intro q now a ha
    cases hs : sync_all_to_sheet env (insertRow st.db q now).2 st.sheet with
    | ok sheet' =>
      simp only [create_account]
      rw [hs]
      exact List.mem_append_left _ ha
    | error e =>
      simp only [create_account]
      rw [hs]
      exact List.mem_append_left _ ha
  cases hfe : st.db.accounts.filter (fun x => x.id = i) with
  | nil =>
    simp only [update_account, hfe] at h
    simp at h
  | cons m rest =>
    have hm : m ∈ st.db.accounts ∧ m.id = i := by
      have hmem : m ∈ st.db.accounts.filter (fun x => x.id = i) := by
        rw [hfe]; exact List.mem_cons_self m rest
      simpa using List.mem_filter.mp hmem
    cases hs : sync_all_to_sheet env
        ⟨st.db.accounts.map (fun a => if a.id = i then applyPayload a p else a),
          st.db.nextId⟩ st.sheet with
    | error e =>
      simp only [update_account, hfe] at h
      rw [hs] at h
      simp at h
    | ok sheet' =>
      simp only [update_account, hfe] at h
      rw [hs] at h
      have h' : ((Except.ok (applyPayload m p) : Except ApiError AccountOut),
          (⟨⟨st.db.accounts.map (fun a => if a.id = i then applyPayload a p else a),
            st.db.nextId⟩, sheet'⟩ : SysState)) = (.ok out, st') := h
      rw [Prod.mk.injEq] at h'
      obtain ⟨h1, h2⟩ := h'
      injection h1 with hout
      subst hout
      subst h2
      refine ⟨hm.2, ⟨m, hm.1, hm.2, rfl⟩, ?_, hcreate⟩
      intro a' ha'
      obtain ⟨a, ha, hfa⟩ := List.mem_map.mp ha'
      by_cases hcase : a.id = i
      · rw [if_pos hcase] at hfa
        exact ⟨a, ha, by rw [← hfa]; exact ⟨rfl, rfl⟩⟩
      · rw [if_neg hcase] at hfa
        exact ⟨a, ha, by rw [← hfa]; exact ⟨rfl, rfl⟩⟩

theorem id_and_created_at_immutable_witness :
    update_account envUnconfigured stateAcb 1 (omittedPayload "newp") = (.ok updOut, updState) ∧
    updOut.id = 1 :=
  ⟨by decide,
   (id_and_created_at_immutable envUnconfigured stateAcb 1 (omittedPayload "newp")
      updOut updState (by decide)).1⟩

/-- C1 counterexample: creating with only `platform` given succeeds, but
the returned record's optional text fields are `none` (serialized as JSON
null), not the empty string: the claim "username is the empty string"
fails on this concrete run. -/
theorem create_omitted_fields_cex :
    (create_account envUnconfigured emptyState (omittedPayload "X") sampleTime).1 =
      .ok { toAccountIn := omittedPayload "X", id := 1,
            created_at := sampleTime, updated_at := sampleTime } ∧
    ({ toAccountIn := omittedPayload "X", id := 1,
       created_at := sampleTime, updated_at := sampleTime } : AccountOut).username = none ∧
    ¬ ({ toAccountIn := omittedPayload "X", id := 1,
         created_at := sampleTime, updated_at := sampleTime } : AccountOut).username =
        some "" := by
  decide

/-- C1 (amended): when the sync cannot fail (sheet unconfigured, or
configured with present credentials and a working service) and the id
sequence is at a positive value, creating with only `platform` succeeds
and returns a record whose optional text fields are null (`none`), whose
`two_factor_enabled` is false, and whose id is a positive integer. -/
theorem create_omitted_fields_defaults (env : Env) (st : SysState)
    (platform : String) (now : Timestamp)
    (hsync : env.spreadsheetId = none ∨
      (env.serviceAccountJson ≠ none ∧ env.serviceOk = true))
    (hseq : 1 ≤ st.db.nextId) :
    (create_account env st (omittedPayload platform) now).1 =
      .ok (insertRow st.db (omittedPayload platform) now).1 ∧
    (insertRow st.db (omittedPayload platform) now).1.username = none ∧
    (insertRow st.db (omittedPayload platform) now).1.email = none ∧
    (insertRow st.db (omittedPayload platform) now).1.password = none ∧
    (insertRow st.db (omittedPayload platform) now).1.phone = none ∧
    (insertRow st.db (omittedPayload platform) now).1.note = none ∧
    (insertRow st.db (omittedPayload platform) now).1.tags = none ∧
    (insertRow st.db (omittedPayload platform) now).1.two_factor_enabled = some false ∧
    (insertRow st.db (omittedPayload platform) now).1.platform = platform ∧
    1 ≤ (insertRow st.db (omittedPayload platform) now).1.id := by
  have hok : ∀ db sheet, ∃ s, sync_all_to_sheet env db sheet = .ok s := by
    intro db sheet
    rcases hsync with hs | ⟨hj, hsv⟩
    · exact ⟨sheet, by simp [sync_all_to_sheet, hs]⟩
    · cases henv : env.spreadsheetId with
      | none => exact ⟨sheet, by simp [sync_all_to_sheet, henv]⟩
      | some sid =>
        cases hj' : env.serviceAccountJson with
        | none => exact absurd hj' hj
        | some j =>
          exact ⟨syncValues db, by simp [sync_all_to_sheet, henv, hj', hsv]⟩
  obtain ⟨s, hs⟩ := hok (insertRow st.db (omittedPayload platform) now).2 st.sheet
  refine ⟨?_, rfl, rfl, rfl, rfl, rfl, rfl, rfl, rfl, hseq⟩
  simp only [create_account]
  rw [hs]

theorem create_omitted_fields_defaults_witness :
    (envUnconfigured.spreadsheetId = none ∨
      (envUnconfigured.serviceAccountJson ≠ none ∧ envUnconfigured.serviceOk = true)) ∧
    1 ≤ emptyState.db.nextId ∧
    (create_account envUnconfigured emptyState (omittedPayload "X") sampleTime).1 =
      .ok (insertRow emptyState.db (omittedPayload "X") sampleTime).1 ∧
    (insertRow emptyState.db (omittedPayload "X") sampleTime).1.username = none :=
  ⟨Or.inl rfl, by decide,
   (create_omitted_fields_defaults envUnconfigured emptyState "X" sampleTime
      (Or.inl rfl) (by decide)).1,
   (create_omitted_fields_defaults envUnconfigured emptyState "X" sampleTime
      (Or.inl rfl) (by decide)).2.1⟩

/-- C10: the search keyword is spliced into the LIKE pattern unescaped,
so the keyword "a%b" (whose `%` acts as a wildcard) makes search return
an account none of whose searched fields contains "a%b" as a literal
case-insensitive substring. -/
theorem search_like_injection :
    (search_accounts stateAcb "a%b").1 = [acctAcb] ∧
    specMatch "a%b" acctAcb = false := by
  decide

/-! Helper lemmas for the search claims: a `LIKE` pattern `%w%` with `w`
free of metacharacters accepts exactly the subjects containing `w`. -/

theorem anyTailF_iff (f : List Char → Bool) (s : List Char) :
    anyTailF f s = true ↔ ∃ l t, s = l ++ t ∧ f t = true := by
  induction s with
  | nil =>
    simp only [anyTailF]
    constructor
    · intro h; exact ⟨[], [], rfl, h⟩
    · rintro ⟨l, t, hs, hf⟩
      obtain ⟨hl, ht⟩ := List.append_eq_nil.mp hs.symm
      subst ht; exact hf
  | cons c s' ih =>
    simp only [anyTailF, Bool.or_eq_true]
    constructor
    · rintro (h | h)
      · exact ⟨[], c :: s', rfl, h⟩
      · obtain ⟨l, t, hs, hf⟩ := ih.mp h
        exact ⟨c :: l, t, by rw [hs, List.cons_append], hf⟩
    · rintro ⟨l, t, hs, hf⟩
      cases l with
      | nil =>
        left
        rw [List.nil_append] at hs
        rw [← hs] at hf
        exact hf
      | cons x l' =>
        right
        rw [List.cons_append] at hs
        injection hs with h1 h2
        exact ih.mpr ⟨l', t, h2, hf⟩

theorem leadMatch_iff : ∀ n s : List Char, leadMatch n s = true ↔ ∃ t, s = n ++ t
  | [], s => by simp [leadMatch]
  | a :: as, [] => by
    constructor
    · intro h; exact absurd h (by simp [leadMatch])
    · rintro ⟨t, ht⟩; exact absurd ht (by simp)
  | a :: as, b :: bs => by
    simp only [leadMatch, Bool.and_eq_true, beq_iff_eq]
    constructor
    · rintro ⟨rfl, h⟩
      obtain ⟨t, ht⟩ := (leadMatch_iff as bs).mp h
      exact ⟨t, by rw [ht, List.cons_append]⟩
    · rintro ⟨t, ht⟩
      rw [List.cons_append] at ht
      injection ht with h1 h2
      exact ⟨h1.symm, (leadMatch_iff as bs).mpr ⟨t, h2⟩⟩

theorem containsSub_iff (n : List Char) : ∀ s : List Char,
    containsSub n s = true ↔ ∃ l t, s = l ++ n ++ t := by
  intro s
  induction s with
  | nil =>
    simp only [containsSub]
    rw [leadMatch_iff]
    constructor
    · rintro ⟨t, ht⟩
      exact ⟨[], t, by rw [List.nil_append]; exact ht⟩
    · rintro ⟨l, t, ht⟩
      obtain ⟨h1, h2⟩ := List.append_eq_nil.mp ht.symm
      obtain ⟨h3, h4⟩ := List.append_eq_nil.mp h1
      subst h4
      exact ⟨t, by rw [List.nil_append]; rw [h2]⟩
  | cons c hs ih =>
    simp only [containsSub, Bool.or_eq_true]
    rw [leadMatch_iff, ih]
    constructor
    · rintro (⟨t, ht⟩ | ⟨l, t, ht⟩)
      · exact ⟨[], t, by rw [List.nil_append]; exact ht⟩
      · exact ⟨c :: l, t, by rw [ht]; simp [List.cons_append]⟩
    · rintro ⟨l, t, ht⟩
      cases l with
      | nil =>
        left
        exact ⟨t, by rw [List.nil_append] at ht; exact ht⟩
      | cons x l' =>
        right
        rw [List.cons_append, List.cons_append] at ht
        injection ht with h1 h2
        exact ⟨l', t, h2⟩

theorem plainChar_spec {c : Char} (h : plainChar c = true) :
    ¬ c = '%' ∧ ¬ c = '\\' ∧ ¬ c = '_' := by
  simp [plainChar] at h
  exact ⟨h.1.1, h.2, h.1.2⟩

theorem plainChar_lowerChar (c : Char) (h : plainChar c = true) :
    plainChar (lowerChar c) = true := by
  unfold lowerChar
  split
  all_goals first | decide | exact h

theorem lowerChar_pct : lowerChar '%' = '%' := rfl

theorem likeMatch_plain : ∀ (w s : List Char), w.all plainChar = true →
    (likeMatch w s = true ↔ s = w)
  | [], s, _ => by cases s <;> simp [likeMatch]
  | c :: w', s, h => by
    obtain ⟨hc, hw⟩ : plainChar c = true ∧ w'.all plainChar = true := by simpa using h
    obtain ⟨h1, h2, h3⟩ := plainChar_spec hc
    cases s with
    | nil =>
      have hv : likeMatch (c :: w') [] = false := by
        rw [likeMatch.eq_def]
        simp only [if_neg h1, if_neg h2]
      rw [hv]
      simp only [Bool.false_eq_true, false_iff]
      exact fun hx => List.noConfusion hx
    | cons e s' =>
      have hv : likeMatch (c :: w') (e :: s') =
          ((c == '_' || c == e) && likeMatch w' s') := by
        rw [likeMatch.eq_def]
        simp only [if_neg h1, if_neg h2]
      rw [hv]
      have hne : (c == '_') = false := by simpa using h3
      simp only [hne, Bool.false_or, Bool.and_eq_true, beq_iff_eq]
      rw [likeMatch_plain w' s' hw]
      constructor
      · rintro ⟨rfl, rfl⟩; rfl
      · intro hq; injection hq with q1 q2; exact ⟨q1.symm, q2⟩

theorem likeMatch_plain_pct : ∀ (w s : List Char), w.all plainChar = true →
    (likeMatch (w ++ ['%']) s = true ↔ ∃ t, s = w ++ t)
  | [], s, _ => by
    simp only [List.nil_append]
    constructor
    · intro _; exact ⟨s, rfl⟩
    · intro _
      have e1 : likeMatch ['%'] s = anyTailF (likeMatch []) s := by
        rw [likeMatch.eq_def]
        simp
      rw [e1]
      exact (anyTailF_iff _ _).mpr ⟨s, [], by simp, rfl⟩
  | c :: w', s, h => by
    obtain ⟨hc, hw⟩ : plainChar c = true ∧ w'.all plainChar = true := by simpa using h
    obtain ⟨h1, h2, h3⟩ := plainChar_spec hc
    rw [List.cons_append]
    cases s with
    | nil =>
      have hv : likeMatch (c :: (w' ++ ['%'])) [] = false := by
        rw [likeMatch.eq_def]
        simp only [if_neg h1, if_neg h2]
      rw [hv]
      simp only [Bool.false_eq_true, false_iff]
      rintro ⟨t, ht⟩
      exact List.noConfusion ht
    | cons e s' =>
      have hv : likeMatch (c :: (w' ++ ['%'])) (e :: s') =
          ((c == '_' || c == e) && likeMatch (w' ++ ['%']) s') := by
        rw [likeMatch.eq_def]
        simp only [if_neg h1, if_neg h2]
      rw [hv]
      have hne : (c == '_') = false := by simpa using h3
      simp only [hne, Bool.false_or, Bool.and_eq_true, beq_iff_eq]
      rw [likeMatch_plain_pct w' s' hw]
      constructor
      · rintro ⟨rfl, t, ht⟩
        exact ⟨t, by rw [ht, List.cons_append]⟩
      · rintro ⟨t, ht⟩
        rw [List.cons_append] at ht
        injection ht with q1 q2
        exact ⟨q1.symm, t, q2⟩

theorem likeMatch_wrap (w s : List Char) (h : w.all plainChar = true) :
    likeMatch ('%' :: (w ++ ['%'])) s = containsSub w s := by
  have hiff : likeMatch ('%' :: (w ++ ['%'])) s = true ↔ containsSub w s = true := by
    have e1 : likeMatch ('%' :: (w ++ ['%'])) s = anyTailF (likeMatch (w ++ ['%'])) s := by
      rw [likeMatch.eq_def]
      simp
    rw [e1, anyTailF_iff, containsSub_iff]
    constructor
    · rintro ⟨l, t, hs, hf⟩
      obtain ⟨u, hu⟩ := (likeMatch_plain_pct w t h).mp hf
      exact ⟨l, u, by rw [hs, hu, List.append_assoc]⟩
    · rintro ⟨l, u, hs⟩
      exact ⟨l, w ++ u, by rw [hs, List.append_assoc],
        (likeMatch_plain_pct w (w ++ u) h).mpr ⟨u, rfl⟩⟩
  exact Bool.eq_iff_iff.mpr hiff

theorem plainKw_lower (q : String) (hq : plainKw q = true) :
    (lowerList q.data).all plainChar = true := by
  unfold plainKw at hq
  unfold lowerList
  rw [List.all_map]
  rw [List.all_eq_true] at hq ⊢
  intro c hc
  exact plainChar_lowerChar c (hq c hc)

theorem ilike_plain (q s : String) (hq : plainKw q = true) :
    ilike s ("%" ++ q ++ "%") = containsCI q s := by
  unfold ilike containsCI
  have hdata : ("%" ++ q ++ "%").data = '%' :: q.data ++ ['%'] := by
    rw [String.data_append, String.data_append]
    rfl
  rw [hdata]
  have hlow : lowerList ('%' :: q.data ++ ['%']) = '%' :: (lowerList q.data ++ ['%']) := by
    simp [lowerList, lowerChar_pct]
  rw [hlow]
  exact likeMatch_wrap (lowerList q.data) (lowerList s.data) (plainKw_lower q hq)

theorem ilikeOpt_plain (q : String) (o : Option String) (hq : plainKw q = true) :
    ilikeOpt o ("%" ++ q ++ "%") = optContainsCI q o := by
  cases o with
  | none => rfl
  | some s => exact ilike_plain q s hq

/-- C2 counterexample: for the keyword "x%y" — which contains the LIKE
wildcard `%` — search returns an account although none of its searched
fields contains "x%y" as a case-insensitive substring, so the claim with
"every keyword" fails. -/
theorem search_exact_match_cex :
    (search_accounts stateXzy "x%y").1 = [acctXzy] ∧
    specMatch "x%y" acctXzy = false := by
  decide

/-- C2 (amended): for every keyword free of the LIKE metacharacters `%`
and `_` and of the escape character `\`, search returns exactly the
accounts whose platform, username, email, or tags contain the keyword as
a case-insensitive substring (a permutation of that filter of the store),
ordered by `updated_at` descending. -/
theorem search_plain_keyword (st : SysState) (q : String) (hq : plainKw q = true) :
    List.Perm (search_accounts st q).1 (st.db.accounts.filter (specMatch q)) ∧
    List.Sorted updatedDesc (search_accounts st q).1 := by
  have hfun : (fun a : AccountOut =>
      ilike a.platform ("%" ++ q ++ "%") || ilikeOpt a.username ("%" ++ q ++ "%") ||
        ilikeOpt a.email ("%" ++ q ++ "%") || ilikeOpt a.tags ("%" ++ q ++ "%")) =
      specMatch q := by
    funext a
    show _ = (containsCI q a.platform || optContainsCI q a.username ||
      optContainsCI q a.email || optContainsCI q a.tags)
    rw [ilike_plain _ _ hq, ilikeOpt_plain _ _ hq, ilikeOpt_plain _ _ hq,
      ilikeOpt_plain _ _ hq]
  have hsearch : (search_accounts st q).1 =
      List.insertionSort updatedDesc (st.db.accounts.filter (specMatch q)) := by
    simp only [search_accounts]
    rw [hfun]
  exact ⟨by rw [hsearch]; exact List.perm_insertionSort _ _,
    by rw [hsearch]; exact List.sorted_insertionSort _ _⟩

theorem search_plain_keyword_witness :
    plainKw "gmail" = true ∧
    List.Perm (search_accounts stateAcb "gmail").1
      (stateAcb.db.accounts.filter (specMatch "gmail")) :=
  ⟨by decide, (search_plain_keyword stateAcb "gmail" (by decide)).1⟩
